import Mathlib

/-!
Verification of the code-review extension's line-reconciliation and
fix-application core (`src/utils/fixApplicator.ts` and the reconciliation
loop of `AIService.getReview`).

The document model follows the VS Code extension host: a text document is a
list of lines (none containing a line terminator) whose textual content is
the lines joined by a single `"\n"`.  A `TextDocument` always has at least
one line (`"".split("\n") = [""]`), so `lineCount ≥ 1` for every document
the extension host hands out.  Positions are (0-based line, 0-based
character) pairs; `offsetAt` first validates the position exactly as the
extension host does (a line past the end clamps to the end of the last
line, a character past a line's end clamps to the line's length).  `Range`
construction swaps its endpoints when they are given out of order, as the
`vscode.Range` constructor documents.

JavaScript strings are modelled as Lean `String`s with offsets counted in
characters, and the JavaScript string primitives the source uses
(`split("\n")`, `trim()`, `includes`, `substring`/`slice`, `endsWith`,
`length`, `+`) are given as structural recursions over the character list
so every definition evaluates by kernel reduction.
-/

namespace CodeReview

/-! ### JavaScript string primitives -/

/-- `s.length` (character count). -/
def jsLength (s : String) : Nat :=
  s.data.length

/-- `s.substring(0, n)` / `s.slice(0, n)`: the first `n` characters. -/
def jsTake (s : String) (n : Nat) : String :=
  ⟨s.data.take n⟩

/-- `s.substring(n)` / `s.slice(n)`: everything from character `n` on. -/
def jsDrop (s : String) (n : Nat) : String :=
  ⟨s.data.drop n⟩

/-- `s.trim()`: surrounding whitespace removed from both ends. -/
def jsTrim (s : String) : String :=
  ⟨((s.data.dropWhile Char.isWhitespace).reverse.dropWhile Char.isWhitespace).reverse⟩

/-- Whether `pre` is a leading segment of `l`. -/
def isPrefixList (pre l : List Char) : Bool :=
  match pre, l with
  | [], _ => true
  | _ :: _, [] => false
  | a :: as, b :: bs => a = b && isPrefixList as bs

/-- Whether `needle` occurs contiguously inside `hay`. -/
def containsList (hay needle : List Char) : Bool :=
  match hay with
  | [] => isPrefixList needle []
  | _ :: rest => isPrefixList needle hay || containsList rest needle

/-- `hay.includes(needle)`: substring containment. -/
def containsStr (hay needle : String) : Bool :=
  containsList hay.data needle.data

/-- `s.endsWith(t)`. -/
def jsEndsWith (s t : String) : Bool :=
  isPrefixList t.data.reverse s.data.reverse

/-- `text.split("\n")` on the character list: always returns at least one
(possibly empty) segment, and one extra segment per `'\n'`. -/
def splitNlChars : List Char → List (List Char)
  | [] => [[]]
  | c :: rest =>
    let r := splitNlChars rest
    if c = '\n' then [] :: r
    else
      match r with
      | [] => [[c]]
      | h :: t => (c :: h) :: t

/-- `text.split("\n")`. -/
def jsSplitNl (s : String) : List String :=
  (splitNlChars s.data).map (fun l => ⟨l⟩)

/-- The inverse of `jsSplitNl`: segments joined by `'\n'`. -/
def joinNlChars : List (List Char) → List Char
  | [] => []
  | [l] => l
  | l :: rest => l ++ '\n' :: joinNlChars rest

/-! ### The document model -/

/-- A position in a document: 0-based line and character, as
`vscode.Position`. -/
structure Position where
  line : Nat
  character : Nat
deriving DecidableEq, Repr

/-- `a.isBeforeOrEqual b` of `vscode.Position`: lexicographic order. -/
def Position.beforeOrEqual (a b : Position) : Prop :=
  a.line < b.line ∨ (a.line = b.line ∧ a.character ≤ b.character)

instance (a b : Position) : Decidable (a.beforeOrEqual b) := by
  unfold Position.beforeOrEqual; infer_instance

/-- A range with a start and an end position. -/
structure Range where
  start : Position
  stop : Position
deriving DecidableEq, Repr

/-- The `vscode.Range` constructor: if `start` is not before or equal to
`end`, the endpoints are swapped. -/
def mkRange (a b : Position) : Range :=
  if a.beforeOrEqual b then ⟨a, b⟩ else ⟨b, a⟩

/-- A document is its list of lines (no line terminators inside). -/
abbrev Document := List String

/-- `doc.getText()`: the lines joined by `"\n"`. -/
def getText (doc : Document) : String :=
  ⟨joinNlChars (doc.map String.data)⟩

/-- `doc.lineAt(i).text`, defaulting to `""` out of range (the extension
host never produces an out-of-range line after position validation). -/
def lineTextAt (doc : Document) (i : Nat) : String :=
  doc.getD i ""

/-- Character offset of the start of (0-based) line `n`: every earlier line
contributes its length plus one for the `"\n"` separator. -/
def prefixLen (doc : Document) (n : Nat) : Nat :=
  ((doc.take n).map (fun s => jsLength s + 1)).sum

/-- `doc.offsetAt(p)` including the extension host's position validation:
a line index past the last line clamps to the end of the last line, a
character past the line's end clamps to the line's length. -/
def offsetAt (doc : Document) (p : Position) : Nat :=
  if p.line ≥ doc.length then
    prefixLen doc (doc.length - 1) + jsLength (lineTextAt doc (doc.length - 1))
  else
    prefixLen doc p.line + min p.character (jsLength (lineTextAt doc p.line))

/-! ### Structured fixes and range resolution (`fixApplicator.ts`) -/

/-- `CodeFix` from `types.ts`.  At runtime (after the `parsed as CodeFix`
cast in `parseFixFormat`) `type` is an arbitrary string compared against
the literals `"replace"`, `"insert"`, `"delete"`, so it is modelled as a
`String`.  Line numbers are 1-based and arrive from JSON, so they are
modelled as unrestricted integers. -/
structure CodeFix where
  type : String
  startLine : Int
  endLine : Int
  newCode : String
  description : String
deriving DecidableEq, Repr

/-- `FixApplicator.createRange`.  `Math.max(0, n)` on an integer is
`Int.toNat`; `doc.lineCount - 1` is a natural-number subtraction because
`lineCount ≥ 1` for every real document. -/
def createRange (doc : Document) (fix : CodeFix) : Range :=
  let startLineIdx : Nat := (fix.startLine - 1).toNat
  let endLineIdx : Nat := min (fix.endLine - 1).toNat (doc.length - 1)
  if fix.type = "insert" then
    -- Insert exactly at the beginning of the specified line
    mkRange ⟨startLineIdx, 0⟩ ⟨startLineIdx, 0⟩
  else if fix.type = "delete" then
    -- Delete full lines including trailing newline
    mkRange ⟨startLineIdx, 0⟩ ⟨min (endLineIdx + 1) doc.length, 0⟩
  else
    -- replace: full lines (from start of first line to end of last line)
    let endChar := if endLineIdx < doc.length then jsLength (lineTextAt doc endLineIdx) else 0
    mkRange ⟨startLineIdx, 0⟩ ⟨endLineIdx, endChar⟩

/-- The error message of `applyFix` for a failing start-line bound. -/
def startLineError (startLine : Int) (lineCount : Nat) : String :=
  "Start line " ++ toString startLine ++ " is out of range (1-" ++
    toString (lineCount + 1) ++ ")"

/-- The error message of `applyFix` for a failing end-line bound. -/
def endLineError (endLine : Int) (lineCount : Nat) : String :=
  "End line " ++ toString endLine ++ " is out of range (1-" ++
    toString lineCount ++ ")"

/-- The "Validate line numbers" block of `FixApplicator.applyFix`
(lines 122-139): `some msg` is the validation error returned, `none` means
validation passed. -/
def validateFix (doc : Document) (fix : CodeFix) : Option String :=
  if fix.startLine < 1 ∨ fix.startLine > (doc.length : Int) + 1 then
    some (startLineError fix.startLine doc.length)
  else if fix.endLine < 1 ∨ fix.endLine > (doc.length : Int) then
    some (endLineError fix.endLine doc.length)
  else
    none

/-- The document content after the `WorkspaceEdit` built by
`FixApplicator.applyFix` (lines 172-192) is applied: a single splice at the
character offsets of the resolved range.  The `switch` has cases only for
the three known type strings; any other value leaves the document
unchanged (an empty edit). -/
def applyEditContent (doc : Document) (fix : CodeFix) : String :=
  let range := createRange doc fix
  let original := getText doc
  let startOffset := offsetAt doc range.start
  let endOffset := offsetAt doc range.stop
  if fix.type = "replace" then
    jsTake original startOffset ++ fix.newCode ++ jsDrop original endOffset
  else if fix.type = "insert" then
    jsTake original startOffset ++ (fix.newCode ++ "\n") ++ jsDrop original startOffset
  else if fix.type = "delete" then
    jsTake original startOffset ++ jsDrop original endOffset
  else
    original

/-- The preview content written by `FixApplicator.showDiffPreview`
(lines 309-330): the same splice as the apply path, with `newCode + "\n"`
for inserts. -/
def showDiffPreviewContent (doc : Document) (fix : CodeFix) : String :=
  let range := createRange doc fix
  let original := getText doc
  let startOffset := offsetAt doc range.start
  let endOffset := offsetAt doc range.stop
  if fix.type = "replace" then
    jsTake original startOffset ++ fix.newCode ++ jsDrop original endOffset
  else if fix.type = "insert" then
    jsTake original startOffset ++ (fix.newCode ++ "\n") ++ jsDrop original startOffset
  else if fix.type = "delete" then
    jsTake original startOffset ++ jsDrop original endOffset
  else
    original

/-- The preview content written by the standalone `FixApplicator.showDiff`
(lines 46-73): identical to `showDiffPreviewContent` except that an insert
whose `newCode` already ends with `"\n"` does not get a second
terminator. -/
def showDiffContent (doc : Document) (fix : CodeFix) : String :=
  let range := createRange doc fix
  let original := getText doc
  let startOffset := offsetAt doc range.start
  let endOffset := offsetAt doc range.stop
  if fix.type = "replace" then
    jsTake original startOffset ++ fix.newCode ++ jsDrop original endOffset
  else if fix.type = "insert" then
    let insertCode := if jsEndsWith fix.newCode "\n" then fix.newCode else fix.newCode ++ "\n"
    jsTake original startOffset ++ insertCode ++ jsDrop original startOffset
  else if fix.type = "delete" then
    jsTake original startOffset ++ jsDrop original endOffset
  else
    original

/-! ### Snippet reconciliation (`AIService.getReview`, lines 69-108) -/

/-- `lines[i] || ""` for an integer index: out-of-range or negative access
yields `undefined`, which `|| ""` turns into the empty string (an empty
line also maps to itself). -/
def jsIndexOr (l : List String) (i : Int) : String :=
  if i < 0 then "" else l.getD i.toNat ""

/-- The `for` loop with `break` of the reconciliation scan: index of the
first line whose trimmed content contains the snippet. -/
def firstMatchIdx (normalizedSnippet : String) : List String → Option Nat
  | [] => none
  | l :: rest =>
      if containsStr (jsTrim l) normalizedSnippet then some 0
      else (firstMatchIdx normalizedSnippet rest).map (· + 1)

/-- The body of the per-issue reconciliation in `AIService.getReview`
(lines 74-98), for an issue whose `codeSnippet` is present and truthy:
returns the corrected value of `issue.line`. -/
def reconcileLine (text : String) (line : Int) (snippet : String) : Int :=
  let lines := jsSplitNl text
  let currentLineContent := jsIndexOr lines (line - 1)
  let normalizedSnippet := jsTrim snippet
  let normalizedLine := jsTrim currentLineContent
  if ¬ containsStr normalizedLine normalizedSnippet ∧ jsLength normalizedSnippet > 5 then
    match firstMatchIdx normalizedSnippet lines with
    | some i => ((i : Int) + 1)
    | none => line
  else
    line

/-- One issue's reconciliation including the `if (issue.codeSnippet)`
truthiness guard (line 70): an absent or empty snippet skips reconciliation
entirely. -/
def reconcile (text : String) (line : Int) (snippet : Option String) : Int :=
  match snippet with
  | none => line
  | some s => if s = "" then line else reconcileLine text line s

/-! ### Fix parsing and the single-fix / batch pipelines -/

/-- A JSON value, as produced by `JSON.parse`.  Duplicate keys are out of
scope (property lookup takes the first binding). -/
inductive JsonValue where
  | null : JsonValue
  | jbool (b : Bool) : JsonValue
  | jnum (n : Int) : JsonValue
  | jstr (s : String) : JsonValue
  | jarr (elems : List JsonValue) : JsonValue
  | jobj (fields : List (String × JsonValue)) : JsonValue

/-- JavaScript property access `v[k]`: `none` is `undefined`.  On non-object
values the properties `type`, `startLine`, `newCode` are all `undefined`. -/
def getProp : JsonValue → String → Option JsonValue
  | .jobj fields, k => List.lookup k fields
  | _, _ => none

/-- JavaScript truthiness of a possibly-`undefined` value. -/
def truthy : Option JsonValue → Bool
  | none => false
  | some .null => false
  | some (.jbool b) => b
  | some (.jnum n) => n ≠ 0
  | some (.jstr s) => s ≠ ""
  | some (.jarr _) => true
  | some (.jobj _) => true

/-- Reading a string-valued field out of the `parsed as CodeFix` cast.  A
non-string value is modelled as `""`; this is behaviour-preserving for
`type` because every comparison made with it is `===` against one of the
non-empty literals `"replace"`, `"insert"`, `"delete"`, and a truthy string
is never `""`. -/
def jsFieldStr (v : Option JsonValue) : String :=
  match v with
  | some (.jstr s) => s
  | _ => ""

/-- Reading a numeric field out of the `parsed as CodeFix` cast.  A
non-numeric value is modelled as `0`; the parse gate never inspects the
numeric fields, so no theorem below depends on this choice. -/
def jsFieldInt (v : Option JsonValue) : Int :=
  match v with
  | some (.jnum n) => n
  | _ => 0

/-- The `parsed as CodeFix` cast after a successful parse gate. -/
def jsonToCodeFix (j : JsonValue) : CodeFix :=
  { type := jsFieldStr (getProp j "type")
    startLine := jsFieldInt (getProp j "startLine")
    endLine := jsFieldInt (getProp j "endLine")
    newCode := jsFieldStr (getProp j "newCode")
    description := jsFieldStr (getProp j "description") }

/-- A fix argument: either an already-structured `CodeFix`, or a string,
carried here as the result of `JSON.parse` on it (`none` when parsing
threw). -/
inductive FixInput where
  | structured (f : CodeFix) : FixInput
  | raw (parsed : Option JsonValue) : FixInput

/-- `FixApplicator.parseFixFormat` (lines 344-364): structured fixes pass
through; a string fix must parse as JSON with `type` truthy and `startLine`
and `newCode` defined, otherwise `null` is returned. -/
def parseFixFormat : FixInput → Option CodeFix
  | .structured f => some f
  | .raw none => none
  | .raw (some j) =>
      if truthy (getProp j "type") &&
          (getProp j "startLine").isSome && (getProp j "newCode").isSome then
        some (jsonToCodeFix j)
      else
        none

/-- `FixApplicationResult` from `fixApplicator.ts`. -/
structure FixApplicationResult where
  success : Bool
  error : Option String := none
  appliedLines : Option (Int × Int) := none
deriving DecidableEq, Repr

/-- The workspace: file name to document, standing in for
`openTextDocument` / the file system.  Lookup takes the first binding. -/
abbrev Docs := List (String × Document)

/-- `openTextDocument`: `none` models the call throwing. -/
def lookupDoc (docs : Docs) (file : String) : Option Document :=
  List.lookup file docs

/-- Persisting a document's new content back to the workspace. -/
def updateDoc (docs : Docs) (file : String) (doc : Document) : Docs :=
  docs.map (fun p => if p.1 = file then (file, doc) else p)

/-- `FixApplicator.applyFix` with `showConfirmation = false` (the batch
path): open the document, parse the fix, validate the line numbers, build
and apply the edit, and save.  `applyEdit` and `save` are modelled as
succeeding; a failed `openTextDocument` is caught and surfaced as a failed
result whose message mentions the file. -/
def applyFix (docs : Docs) (file : String) (fix : FixInput) :
    FixApplicationResult × Docs :=
  match lookupDoc docs file with
  | none => (⟨false, some ("cannot open " ++ file), none⟩, docs)
  | some doc =>
    match parseFixFormat fix with
    | none => (⟨false, some "Invalid fix format", none⟩, docs)
    | some f =>
      match validateFix doc f with
      | some e => (⟨false, some e, none⟩, docs)
      | none =>
          let newContent := applyEditContent doc f
          (⟨true, none, some (f.startLine, f.endLine)⟩,
            updateDoc docs file (jsSplitNl newContent))

/-- The aggregate result of `applyMultipleFixes`. -/
structure BatchResult where
  succeeded : Nat
  failed : Nat
  errors : List String
deriving DecidableEq, Repr

/-- `FixApplicator.applyMultipleFixes` (lines 369-406): sequential
application with `showConfirmation = false`, counting successes and
failures and recording one error string per failure, in processing
order. -/
def applyMultipleFixes (docs : Docs) : List (String × FixInput) → BatchResult × Docs
  | [] => (⟨0, 0, []⟩, docs)
  | (file, fix) :: rest =>
      let step := applyFix docs file fix
      let next := applyMultipleFixes step.2 rest
      if step.1.success then
        (⟨next.1.succeeded + 1, next.1.failed, next.1.errors⟩, next.2)
      else
        (⟨next.1.succeeded, next.1.failed + 1,
          (file ++ ": " ++ step.1.error.getD "Unknown error") :: next.1.errors⟩, next.2)

/-! ### Helper lemmas -/

/-- The empty string contains no non-empty substring. -/
theorem containsStr_empty_hay (ns : String) (h : ns.data ≠ []) :
    containsStr "" ns = false := by
  have hrw : containsStr "" ns = isPrefixList ns.data [] := rfl
  rw [hrw]
  cases hd : ns.data with
  | nil => exact absurd hd h
  | cons c cs => rfl

/-- A string whose trimmed length exceeds 5 is not empty. -/
theorem ne_empty_of_trim_length (s : String) (h : 5 < jsLength (jsTrim s)) :
    s ≠ "" := by
  intro hs
  subst hs
  simp [jsTrim, jsLength] at h

/-- A trimmed string of length above 5 has non-empty character data. -/
theorem trim_data_ne_nil (s : String) (h : 5 < jsLength (jsTrim s)) :
    (jsTrim s).data ≠ [] := by
  intro hnil
  rw [jsLength, hnil] at h
  simp at h

/-- The scan of `reconcileLine` returns the first matching index. -/
theorem firstMatchIdx_some (ns : String) :
    ∀ (l : List String) (i : Nat), i < l.length →
      containsStr (jsTrim (l.getD i "")) ns = true →
      (∀ j, j < i → containsStr (jsTrim (l.getD j "")) ns = false) →
      firstMatchIdx ns l = some i := by
  intro l
  induction l with
  | nil => intro i hi; simp at hi
  | cons a rest ih =>
    intro i hi hm hmin
    cases i with
    | zero =>
      rw [List.getD_cons_zero] at hm
      simp [firstMatchIdx, hm]
    | succ k =>
      have h0 := hmin 0 (Nat.succ_pos k)
      rw [List.getD_cons_zero] at h0
      rw [List.getD_cons_succ] at hm
      have hk : k < rest.length := Nat.lt_of_succ_lt_succ hi
      have hmin2 : ∀ j, j < k → containsStr (jsTrim (rest.getD j "")) ns = false := by
        intro j hj
        have := hmin (j + 1) (Nat.succ_lt_succ hj)
        rwa [List.getD_cons_succ] at this
      simp [firstMatchIdx, h0, ih k hk hm hmin2]

/-- The scan of `reconcileLine` finds nothing when no line matches. -/
theorem firstMatchIdx_none (ns : String) :
    ∀ (l : List String), (∀ j, j < l.length → containsStr (jsTrim (l.getD j "")) ns = false) →
      firstMatchIdx ns l = none := by
  intro l
  induction l with
  | nil => intro; rfl
  | cons a rest ih =>
    intro h
    have h0 := h 0 (Nat.succ_pos rest.length)
    rw [List.getD_cons_zero] at h0
    have hrest : ∀ j, j < rest.length → containsStr (jsTrim (rest.getD j "")) ns = false := by
      intro j hj
      have := h (j + 1) (Nat.succ_lt_succ hj)
      rwa [List.getD_cons_succ] at this
    simp [firstMatchIdx, h0, ih hrest]

/-- `getD` past the end of a list is the default. -/
theorem getD_of_length_le (l : List String) (n : Nat) (h : l.length ≤ n) :
    l.getD n "" = "" := by
  simp [List.getD_eq_getElem?_getD, List.getElem?_eq_none h]

/-! ### The claims -/

/-- C1: on the document with lines `["a","b","c"]`, the range resolution
plus string splice of the fix-application component yields `["a","B","c"]`
for `replace` of lines 2-2 with `"B"`, `["a","c"]` for `delete` of lines
2-2, and `["a","X","b","c"]` for `insert` at line 2 of `"X"` (the insert
fix's `endLine` and the delete fix's `newCode` are immaterial and set to
arbitrary in-range values here). -/
theorem c1_concrete_fix_scenarios :
    jsSplitNl (applyEditContent ["a","b","c"] ⟨"replace", 2, 2, "B", ""⟩) = ["a","B","c"] ∧
    jsSplitNl (applyEditContent ["a","b","c"] ⟨"delete", 2, 2, "", ""⟩) = ["a","c"] ∧
    jsSplitNl (applyEditContent ["a","b","c"] ⟨"insert", 2, 2, "X", ""⟩) = ["a","X","b","c"] := by
  decide

/-- C2 counterexample: the insert fix of `"X\n"` at line 1 of the document
`["a","b"]` passes range validation, yet the content computed for the
standalone diff view (`showDiff`) differs from the content the apply path
persists: the former is `"X\na\nb"`, the latter `"X\n\na\nb"`. -/
theorem c2_counterexample :
    validateFix ["a","b"] ⟨"insert", 1, 1, "X\n", ""⟩ = none ∧
    showDiffContent ["a","b"] ⟨"insert", 1, 1, "X\n", ""⟩ ≠
      applyEditContent ["a","b"] ⟨"insert", 1, 1, "X\n", ""⟩ := by
  decide

/-- C2 amended: the preview content of `showDiffPreview` (the diff shown
inside the apply flow) is byte-identical to the applied content for every
document and fix; the standalone `showDiff` preview is byte-identical to
the applied content except for insert fixes whose `newCode` already ends
with a newline, where `showDiff` omits the extra terminator that the apply
path appends. -/
theorem c2_preview_refines_apply (doc : Document) (fix : CodeFix) :
    showDiffPreviewContent doc fix = applyEditContent doc fix ∧
    (jsEndsWith fix.newCode "\n" = false →
      showDiffContent doc fix = applyEditContent doc fix) ∧
    (fix.type ≠ "insert" → showDiffContent doc fix = applyEditContent doc fix) := by
  refine ⟨rfl, ?_, ?_⟩
  · intro hne
    unfold showDiffContent applyEditContent
    by_cases h1 : fix.type = "replace" <;> by_cases h2 : fix.type = "insert" <;>
      simp [h1, h2, hne]
  · intro hne
    unfold showDiffContent applyEditContent
    by_cases h1 : fix.type = "replace" <;> simp [h1, hne]

/-- C2 witness: for an insert whose `newCode` does not end with a newline,
the standalone diff preview and the applied content agree. -/
theorem c2_preview_refines_apply_witness :
    showDiffContent ["a","b"] ⟨"insert", 1, 1, "X", ""⟩ =
      applyEditContent ["a","b"] ⟨"insert", 1, 1, "X", ""⟩ :=
  (c2_preview_refines_apply ["a","b"] ⟨"insert", 1, 1, "X", ""⟩).2.1 (by decide)

/-- C4 counterexample: on the 3-line document `["a","b","c"]`, the replace
fix with `startLine = lineCount + 1 = 4 > lineCount` and
`endLine = lineCount = 3` passes range validation and is applied
successfully, contradicting the claim that every non-insert fix with
`startLine > lineCount` fails validation. -/
theorem c4_counterexample :
    ((4 : Int) > ((["a","b","c"] : Document).length : Int)) ∧
    validateFix ["a","b","c"] ⟨"replace", 4, 3, "B", ""⟩ = none ∧
    (applyFix [("f.ts", ["a","b","c"])] "f.ts"
      (.structured ⟨"replace", 4, 3, "B", ""⟩)).1.success = true := by
  decide

/-- C4 amended: range validation rejects `startLine` (with an error naming
the start bound and the valid range `1..lineCount+1`) whenever
`startLine > lineCount + 1`, for every fix type; but
`startLine = lineCount + 1` passes the start-line check even for
non-insert fixes, so a replace fix with `startLine = lineCount + 1` and
`1 ≤ endLine ≤ lineCount` passes validation entirely. -/
theorem c4_start_line_validation (doc : Document) (fix : CodeFix) :
    (fix.startLine > (doc.length : Int) + 1 →
      validateFix doc fix = some (startLineError fix.startLine doc.length)) ∧
    (fix.startLine = (doc.length : Int) + 1 → 1 ≤ fix.endLine →
      fix.endLine ≤ (doc.length : Int) → validateFix doc fix = none) := by
  constructor
  · intro h
    unfold validateFix
    rw [if_pos (Or.inr h)]
  · intro h h1 h2
    have hA : ¬ (fix.startLine < 1 ∨ fix.startLine > (doc.length : Int) + 1) := by omega
    have hB : ¬ (fix.endLine < 1 ∨ fix.endLine > (doc.length : Int)) := by omega
    simp [validateFix, hA, hB]

/-- C4 witness: start line 9 on a 3-line document is rejected with the
start-line error; start line 4 (= lineCount + 1) with end line 3 passes. -/
theorem c4_start_line_validation_witness :
    validateFix ["a","b","c"] ⟨"replace", 9, 1, "B", ""⟩ = some (startLineError 9 3) ∧
    validateFix ["a","b","c"] ⟨"replace", 4, 3, "B", ""⟩ = none :=
  ⟨(c4_start_line_validation ["a","b","c"] ⟨"replace", 9, 1, "B", ""⟩).1 (by decide),
   (c4_start_line_validation ["a","b","c"] ⟨"replace", 4, 3, "B", ""⟩).2
     (by decide) (by decide) (by decide)⟩

/-- C5 counterexample: the replace fix of lines 3..1 (startLine > endLine,
both within the bounds of the 3-line document `["a","b","c"]`) does not
fail validation: it passes and is applied (the out-of-order endpoints are
silently swapped by range construction). -/
theorem c5_counterexample :
    ((3 : Int) > 1) ∧
    validateFix ["a","b","c"] ⟨"replace", 3, 1, "B", ""⟩ = none ∧
    (applyFix [("f.ts", ["a","b","c"])] "f.ts"
      (.structured ⟨"replace", 3, 1, "B", ""⟩)).1.success = true := by
  decide

/-- C5 amended: for every replace or delete fix with
`1 ≤ endLine < startLine ≤ lineCount + 1`, validation passes and the fix
is applied successfully — out-of-order ranges are silently normalized by
the range constructor, not rejected. -/
theorem c5_out_of_order_applied (docs : Docs) (file : String) (doc : Document)
    (fix : CodeFix) (hdoc : lookupDoc docs file = some doc)
    (htype : fix.type = "replace" ∨ fix.type = "delete")
    (h1 : 1 ≤ fix.endLine) (h2 : fix.endLine < fix.startLine)
    (h3 : fix.startLine ≤ (doc.length : Int) + 1) :
    validateFix doc fix = none ∧
    (applyFix docs file (.structured fix)).1.success = true := by
  have hA : ¬ (fix.startLine < 1 ∨ fix.startLine > (doc.length : Int) + 1) := by omega
  have hB : ¬ (fix.endLine < 1 ∨ fix.endLine > (doc.length : Int)) := by omega
  have hv : validateFix doc fix = none := by simp [validateFix, hA, hB]
  refine ⟨hv, ?_⟩
  simp [applyFix, hdoc, parseFixFormat, hv]

/-- C5 witness: the delete fix of lines 3..1 on `["a","b","c"]` is applied
successfully. -/
theorem c5_out_of_order_applied_witness :
    (applyFix [("f.ts", ["a","b","c"])] "f.ts"
      (.structured ⟨"delete", 3, 1, "", ""⟩)).1.success = true :=
  (c5_out_of_order_applied [("f.ts", ["a","b","c"])] "f.ts" ["a","b","c"]
      ⟨"delete", 3, 1, "", ""⟩ (by decide) (Or.inr rfl)
      (by decide) (by decide) (by decide)).2

/-- C6 counterexample: two insert fixes at the in-range start line 2 of
the 3-line document `["a","b","c"]`, differing only in `endLine` (4 vs 2),
validate differently — `endLine = 4` is rejected with the end-line error
while `endLine = 2` passes — so validation does not ignore `endLine` for
inserts. -/
theorem c6_counterexample :
    validateFix ["a","b","c"] ⟨"insert", 2, 4, "X", ""⟩ = some (endLineError 4 3) ∧
    validateFix ["a","b","c"] ⟨"insert", 2, 2, "X", ""⟩ = none ∧
    ((1 : Int) ≤ 2 ∧ (2 : Int) ≤ ((["a","b","c"] : Document).length : Int) + 1) :=
  ⟨rfl, rfl, by decide⟩

/-- C6 amended: for insert fixes the resolved range ignores `endLine` — it
is the zero-width point at the start of `startLine` for every value of
`endLine` — but validation still requires `1 ≤ endLine ≤ lineCount`, so
two insert fixes differing only in `endLine` are guaranteed to validate
identically only when both `endLine` values are within `1..lineCount`. -/
theorem c6_insert_ignores_end_line (doc : Document) (fix : CodeFix) (e : Int)
    (htype : fix.type = "insert") :
    createRange doc { fix with endLine := e } = createRange doc fix ∧
    createRange doc fix =
      ⟨⟨(fix.startLine - 1).toNat, 0⟩, ⟨(fix.startLine - 1).toNat, 0⟩⟩ ∧
    (1 ≤ e → e ≤ (doc.length : Int) → 1 ≤ fix.endLine →
      fix.endLine ≤ (doc.length : Int) →
      validateFix doc { fix with endLine := e } = validateFix doc fix) := by
  refine ⟨?_, ?_, ?_⟩
  · simp [createRange, htype, mkRange, Position.beforeOrEqual]
  · simp [createRange, htype, mkRange, Position.beforeOrEqual]
  · intro he1 he2 hf1 hf2
    have hB1 : ¬ (e < 1 ∨ e > (doc.length : Int)) := by omega
    have hB2 : ¬ (fix.endLine < 1 ∨ fix.endLine > (doc.length : Int)) := by omega
    by_cases hA : fix.startLine < 1 ∨ fix.startLine > (doc.length : Int) + 1
    · simp [validateFix, hA]
    · simp [validateFix, hA, hB1, hB2]

/-- C6 witness: on `["a","b","c"]`, the insert fix at line 2 resolves to
the same range whether its `endLine` is 9 or 2. -/
theorem c6_insert_ignores_end_line_witness :
    createRange ["a","b","c"] ⟨"insert", 2, 9, "X", ""⟩ =
      createRange ["a","b","c"] ⟨"insert", 2, 2, "X", ""⟩ :=
  (c6_insert_ignores_end_line ["a","b","c"] ⟨"insert", 2, 2, "X", ""⟩ 9 rfl).1

/-- C3: when the trimmed snippet is longer than 5 characters and the
trimmed content of the claimed line does not contain it, reconciliation
sets the line to the 1-based index of the earliest line whose trimmed
content contains the trimmed snippet (first match in file order), and
leaves the line unchanged when no line matches. -/
theorem c3_reconcile_relocates (text : String) (line : Int) (snip : String)
    (hlen : 5 < jsLength (jsTrim snip))
    (hmiss : containsStr (jsTrim (jsIndexOr (jsSplitNl text) (line - 1)))
      (jsTrim snip) = false) :
    (∀ i, i < (jsSplitNl text).length →
      containsStr (jsTrim ((jsSplitNl text).getD i "")) (jsTrim snip) = true →
      (∀ j, j < i →
        containsStr (jsTrim ((jsSplitNl text).getD j "")) (jsTrim snip) = false) →
      reconcile text line (some snip) = (i : Int) + 1) ∧
    ((∀ j, j < (jsSplitNl text).length →
      containsStr (jsTrim ((jsSplitNl text).getD j "")) (jsTrim snip) = false) →
      reconcile text line (some snip) = line) := by
  have hs : snip ≠ "" := ne_empty_of_trim_length snip hlen
  have hrec : reconcile text line (some snip) = reconcileLine text line snip := by
    simp [reconcile, hs]
  have hcond : ¬ containsStr (jsTrim (jsIndexOr (jsSplitNl text) (line - 1)))
      (jsTrim snip) = true ∧ jsLength (jsTrim snip) > 5 := by
    exact ⟨by simp [hmiss], hlen⟩
  constructor
  · intro i hi hm hmin
    rw [hrec]
    unfold reconcileLine
    rw [if_pos hcond, firstMatchIdx_some (jsTrim snip) (jsSplitNl text) i hi hm hmin]
  · intro hnone
    rw [hrec]
    unfold reconcileLine
    rw [if_pos hcond, firstMatchIdx_none (jsTrim snip) (jsSplitNl text) hnone]

/-- C3 witness: in the file whose line 5 is `"const x = 1;"` (lines 1-4
and 6 do not contain the snippet), an issue claiming line 3 with snippet
`"const x = 1;"` is corrected to line 5. -/
theorem c3_reconcile_relocates_witness :
    reconcile "a\nb\nc\nd\nconst x = 1;\nf" 3 (some "const x = 1;") = 5 :=
  (c3_reconcile_relocates "a\nb\nc\nd\nconst x = 1;\nf" 3 "const x = 1;"
    (by decide) (by decide)).1 4 (by decide) (by decide) (by decide)

/-- C8: reconciliation leaves the claimed line unchanged whenever the
snippet is absent, or its trimmed length is at most 5 characters, or the
trimmed content of the claimed line already contains the trimmed
snippet. -/
theorem c8_reconcile_noop (text : String) (line : Int) (snippet : Option String)
    (h : snippet = none ∨ ∃ s, snippet = some s ∧
      (jsLength (jsTrim s) ≤ 5 ∨
       containsStr (jsTrim (jsIndexOr (jsSplitNl text) (line - 1)))
         (jsTrim s) = true)) :
    reconcile text line snippet = line := by
  rcases h with h | ⟨s, rfl, h⟩
  · subst h; rfl
  · by_cases hs : s = ""
    · simp [reconcile, hs]
    · have hrec : reconcile text line (some s) = reconcileLine text line s := by
        simp [reconcile, hs]
      rw [hrec]
      simp only [reconcileLine]
      split
      · rename_i hc
        exfalso
        rcases h with h | h
        · omega
        · exact hc.1 h
      · rfl

/-- C8 witness: a 2-character snippet leaves the claimed line untouched. -/
theorem c8_reconcile_noop_witness :
    reconcile "const value = 10;" 1 (some "x;") = 1 :=
  c8_reconcile_noop "const value = 10;" 1 (some "x;")
    (Or.inr ⟨"x;", rfl, Or.inl (by decide)⟩)

/-- C9: when the trimmed snippet is longer than 5 characters and exactly
one line's trimmed content contains it, one run of reconciliation sets the
line to that unique line (1-based), and a second run on the same document
returns the same line — reconciliation is idempotent there. -/
theorem c9_reconcile_idempotent (text : String) (line : Int) (snip : String)
    (i : Nat) (hlen : 5 < jsLength (jsTrim snip))
    (hi : i < (jsSplitNl text).length)
    (hmatch : containsStr (jsTrim ((jsSplitNl text).getD i "")) (jsTrim snip) = true)
    (huniq : ∀ j, j < (jsSplitNl text).length →
      containsStr (jsTrim ((jsSplitNl text).getD j "")) (jsTrim snip) = true → j = i) :
    reconcile text line (some snip) = (i : Int) + 1 ∧
    reconcile text (reconcile text line (some snip)) (some snip) =
      reconcile text line (some snip) := by
  have hs : snip ≠ "" := ne_empty_of_trim_length snip hlen
  have hdata : (jsTrim snip).data ≠ [] := trim_data_ne_nil snip hlen
  have key : ∀ l : Int, reconcile text l (some snip) = (i : Int) + 1 := by
    intro l
    have hrec : reconcile text l (some snip) = reconcileLine text l snip := by
      simp [reconcile, hs]
    rw [hrec]
    simp only [reconcileLine]
    split
    · have hmin : ∀ j, j < i →
          containsStr (jsTrim ((jsSplitNl text).getD j "")) (jsTrim snip) = false := by
        intro j hj
        by_contra hcontra
        have : j = i :=
          huniq j (Nat.lt_trans hj hi) (by simpa using hcontra)
        omega
      rw [firstMatchIdx_some (jsTrim snip) (jsSplitNl text) i hi hmatch hmin]
    · rename_i hc
      have hcont : containsStr (jsTrim (jsIndexOr (jsSplitNl text) (l - 1)))
          (jsTrim snip) = true := by
        by_contra hcontra
        exact hc ⟨by simpa using hcontra, hlen⟩
      -- the claimed line contains the unique snippet, so it is line i + 1
      unfold jsIndexOr at hcont
      split at hcont
      · rw [jsTrim, show ("" : String).data = [] from rfl] at hcont
        simp only [List.dropWhile_nil, List.reverse_nil] at hcont
        rw [containsStr_empty_hay (jsTrim snip) hdata] at hcont
        exact absurd hcont (by simp)
      · rename_i hge
        by_cases hb : (jsSplitNl text).length ≤ (l - 1).toNat
        · rw [getD_of_length_le (jsSplitNl text) (l - 1).toNat hb] at hcont
          rw [jsTrim, show ("" : String).data = [] from rfl] at hcont
          simp only [List.dropWhile_nil, List.reverse_nil] at hcont
          rw [containsStr_empty_hay (jsTrim snip) hdata] at hcont
          exact absurd hcont (by simp)
        · have hji : (l - 1).toNat = i :=
            huniq (l - 1).toNat (by omega) hcont
          have hl1 : (0 : Int) ≤ l - 1 := by omega
          have : l - 1 = (i : Int) := by
            rw [← hji]; exact (Int.toNat_of_nonneg hl1).symm
          omega
  exact ⟨key line, by rw [key line, key ((i : Int) + 1)]⟩

/-- C9 witness: the snippet `"const y = 22;"` occurs exactly on line 2 of
a 3-line file; reconciliation from claimed line 1 yields 2, and a second
run yields 2 again. -/
theorem c9_reconcile_idempotent_witness :
    reconcile "aaa\nconst y = 22;\nbbb" 1 (some "const y = 22;") = 2 ∧
    reconcile "aaa\nconst y = 22;\nbbb"
        (reconcile "aaa\nconst y = 22;\nbbb" 1 (some "const y = 22;"))
        (some "const y = 22;") =
      reconcile "aaa\nconst y = 22;\nbbb" 1 (some "const y = 22;") :=
  c9_reconcile_idempotent "aaa\nconst y = 22;\nbbb" 1 "const y = 22;" 1
    (by decide) (by decide) (by decide) (by decide)

/-- C7: batch application processes the list sequentially, continuing past
failures: the succeeded and failed counts sum to the number of fixes, the
errors list has exactly one entry per failed fix, each entry starts with
the failing fix's file followed by `": "`, and when exactly one fix fails
the aggregate is `succeeded = N - 1`, `failed = 1` with one error
entry. -/
theorem c7_batch_aggregate (docs : Docs) (fixes : List (String × FixInput)) :
    (applyMultipleFixes docs fixes).1.succeeded +
      (applyMultipleFixes docs fixes).1.failed = fixes.length ∧
    (applyMultipleFixes docs fixes).1.errors.length =
      (applyMultipleFixes docs fixes).1.failed ∧
    (∀ e ∈ (applyMultipleFixes docs fixes).1.errors,
      ∃ p ∈ fixes, ∃ msg, e = p.1 ++ ": " ++ msg) ∧
    ((applyMultipleFixes docs fixes).1.failed = 1 →
      (applyMultipleFixes docs fixes).1.succeeded + 1 = fixes.length ∧
      (applyMultipleFixes docs fixes).1.errors.length = 1) := by
  have main : ∀ (fs : List (String × FixInput)) (ds : Docs),
      (applyMultipleFixes ds fs).1.succeeded +
        (applyMultipleFixes ds fs).1.failed = fs.length ∧
      (applyMultipleFixes ds fs).1.errors.length =
        (applyMultipleFixes ds fs).1.failed ∧
      (∀ e ∈ (applyMultipleFixes ds fs).1.errors,
        ∃ p ∈ fs, ∃ msg, e = p.1 ++ ": " ++ msg) := by
    intro fs
    induction fs with
    | nil => intro ds; simp [applyMultipleFixes]
    | cons hd rest ih =>
      intro ds
      obtain ⟨file, fix⟩ := hd
      obtain ⟨ihSum, ihLen, ihMem⟩ := ih (applyFix ds file fix).2
      simp only [applyMultipleFixes]
      by_cases hs : (applyFix ds file fix).1.success = true
      · simp only [hs, if_true]
        refine ⟨by simpa using by omega, by simpa using ihLen, ?_⟩
        intro e he
        obtain ⟨p, hp, msg, hmsg⟩ := ihMem e he
        exact ⟨p, List.mem_cons_of_mem _ hp, msg, hmsg⟩
      · simp only [hs, if_false]
        refine ⟨by simpa using by omega, by simpa using ihLen, ?_⟩
        intro e he
        rcases List.mem_cons.mp he with he | he
        · exact ⟨(file, fix), List.mem_cons_self _ _,
            (applyFix ds file fix).1.error.getD "Unknown error", he⟩
        · obtain ⟨p, hp, msg, hmsg⟩ := ihMem e he
          exact ⟨p, List.mem_cons_of_mem _ hp, msg, hmsg⟩
  obtain ⟨hSum, hLen, hMem⟩ := main fixes docs
  refine ⟨hSum, hLen, hMem, fun h1 => ⟨by omega, by rw [hLen, h1]⟩⟩

/-- C7 witness: a batch of three fixes on a 3-line file whose middle fix
has an out-of-range start line reports 2 successes, 1 failure and a single
error entry. -/
theorem c7_batch_aggregate_witness :
    (applyMultipleFixes [("a.ts", ["a","b","c"])]
      [("a.ts", .structured ⟨"replace", 2, 2, "B", ""⟩),
       ("a.ts", .structured ⟨"replace", 99, 1, "Z", ""⟩),
       ("a.ts", .structured ⟨"delete", 1, 1, "", ""⟩)]).1.succeeded + 1 = 3 ∧
    (applyMultipleFixes [("a.ts", ["a","b","c"])]
      [("a.ts", .structured ⟨"replace", 2, 2, "B", ""⟩),
       ("a.ts", .structured ⟨"replace", 99, 1, "Z", ""⟩),
       ("a.ts", .structured ⟨"delete", 1, 1, "", ""⟩)]).1.errors.length = 1 :=
  (c7_batch_aggregate [("a.ts", ["a","b","c"])]
      [("a.ts", .structured ⟨"replace", 2, 2, "B", ""⟩),
       ("a.ts", .structured ⟨"replace", 99, 1, "Z", ""⟩),
       ("a.ts", .structured ⟨"delete", 1, 1, "", ""⟩)]).2.2.2 (by decide)

/-- If a possibly-undefined value is truthy it is defined. -/
theorem isSome_of_truthy (v : Option JsonValue) (h : truthy v = true) :
    v.isSome = true := by
  cases v with
  | none => simp [truthy] at h
  | some j => rfl

/-- C10: applying a string-form fix to an openable document succeeds only
if the string parsed as JSON with the fields `type`, `startLine` and
`newCode` all defined; when the parse failed or one of those fields is
undefined, the result is `{success: false, error: "Invalid fix format"}`
and the workspace is unmodified.  In particular a delete fix serialized
without `newCode` is rejected even though deletes never use `newCode`. -/
theorem c10_string_fix_parse_gate (docs : Docs) (file : String) (doc : Document)
    (pj : Option JsonValue) (hdoc : lookupDoc docs file = some doc) :
    ((applyFix docs file (.raw pj)).1.success = true →
      ∃ j, pj = some j ∧ (getProp j "type").isSome = true ∧
        (getProp j "startLine").isSome = true ∧
        (getProp j "newCode").isSome = true) ∧
    ((pj = none ∨ ∃ j, pj = some j ∧
        (getProp j "type" = none ∨ getProp j "startLine" = none ∨
         getProp j "newCode" = none)) →
      (applyFix docs file (.raw pj)).1 = ⟨false, some "Invalid fix format", none⟩ ∧
      (applyFix docs file (.raw pj)).2 = docs) := by
  cases pj with
  | none =>
    constructor
    · intro h
      simp [applyFix, hdoc, parseFixFormat] at h
    · intro _
      constructor <;> simp [applyFix, hdoc, parseFixFormat]
  | some j =>
    by_cases hg : (truthy (getProp j "type") &&
        (getProp j "startLine").isSome && (getProp j "newCode").isSome) = true
    · have hparse : parseFixFormat (.raw (some j)) = some (jsonToCodeFix j) := by
        simp only [parseFixFormat, hg, if_true]
      obtain ⟨⟨ht, hsl⟩, hnc⟩ :
          (truthy (getProp j "type") = true ∧ (getProp j "startLine").isSome = true) ∧
            (getProp j "newCode").isSome = true := by
        simpa [Bool.and_eq_true] using hg
      constructor
      · intro _
        exact ⟨j, rfl, isSome_of_truthy (getProp j "type") ht, hsl, hnc⟩
      · intro h
        exfalso
        rcases h with h | ⟨j2, hj2, h⟩
        · exact Option.noConfusion h
        · obtain rfl : j2 = j := by injection hj2 with h2; exact h2.symm
          rcases h with h | h | h
          · rw [h] at ht; simp [truthy] at ht
          · rw [h] at hsl; simp at hsl
          · rw [h] at hnc; simp at hnc
    · have hparse : parseFixFormat (.raw (some j)) = none := by
        simp [parseFixFormat, hg]
      constructor
      · intro h
        simp [applyFix, hdoc, hparse] at h
      · intro _
        constructor <;> simp [applyFix, hdoc, hparse]

/-- C10 witness: a delete fix serialized as JSON with `type`, `startLine`
and `endLine` but no `newCode` field is rejected with "Invalid fix
format". -/
theorem c10_string_fix_parse_gate_witness :
    (applyFix [("a.ts", ["a"])] "a.ts"
      (.raw (some (.jobj [("type", .jstr "delete"), ("startLine", .jnum 1),
        ("endLine", .jnum 1)])))).1 =
      ⟨false, some "Invalid fix format", none⟩ :=
  ((c10_string_fix_parse_gate [("a.ts", ["a"])] "a.ts" ["a"]
      (some (.jobj [("type", .jstr "delete"), ("startLine", .jnum 1),
        ("endLine", .jnum 1)])) rfl).2
    (Or.inr ⟨_, rfl, Or.inr (Or.inr rfl)⟩)).1

end CodeReview
